import Mathlib

/-!
Verification development for a set of AWS Lambda functions that move
time-series telemetry between a Timestream table, S3 and SQS.

The definitions below are shallow embeddings of the Python sources:

* `lambda_timestream_dump_to_s3_json.py` (the exporter): pages returned by
  the paginated Timestream query are accumulated into chunks of at most
  BLOCKSIZE pages and saved to S3 as numbered dump documents.
* `lambda_timestream_load_from_dump_to_s3_json.py` (the importer): dump
  documents are fetched from S3, every row is reshaped into a Timestream
  write record, and records are written in batches of at most 100.
* `lambda_dump_SQS_to_S3.py` and `lambda_write_to_S3_from_SQS.py` (queue
  to S3 handlers): each SQS record is stored to S3 and the handler returns
  the message ids it could not process.
* `lambda_publish_timestream_dump_files_list_to_SQS.py` (fan-out): every
  .json key of the dump bucket is published as one SQS message.

External services (S3, SQS, Timestream, json.loads, dateutil) appear as
oracle functions inside environment structures; everything else is
translated statement by statement from the Python code.
-/

namespace Lambdas

/-- Reference chunking used to state the spec: split a list into
consecutive blocks of size B, the last block possibly shorter. -/
def specChunks (B : Nat) : List α → List (List α)
  | [] => []
  | x :: xs => (x :: xs.take (B - 1)) :: specChunks B (xs.drop (B - 1))
termination_by l => l.length
decreasing_by simp [List.length_drop]; omega

/-! ## Exporter: lambda_timestream_dump_to_s3_json.py -/

/-- One page of the paginated Timestream query result, with its
ColumnInfo metadata and its rows.  Row and column-info contents are
opaque to the exporter, so they are type parameters. -/
structure Page (Rho Kol : Type) where
  ColumnInfo : Kol
  Rows : List Rho

/-- One S3 dump document written by save_to_s3: the 1-based file number
used in the object key, the accumulated rows and the captured
ColumnInfo.  The ColumnInfo is an Option because the Python variable
columns is unassigned until the first page has been seen. -/
structure Doc (Rho Kol : Type) where
  file_nb : Nat
  Rows : List Rho
  ColumnInfo : Option Kol

/-- The mutable state of the page loop in lambda_handler
(lines 112-135): pg_nb, pg_count, file_nb, rows, columns, plus the list
of documents written to S3 so far. -/
structure ExpState (Rho Kol : Type) where
  pg_nb : Nat
  pg_count : Nat
  file_nb : Nat
  rows : List Rho
  columns : Option Kol
  docs : List (Doc Rho Kol)

/-- One iteration of the for-page loop of the exporter lambda_handler:
increment the counters, capture ColumnInfo when pg_count is 1, extend
rows, and when pg_count reaches BLOCKSIZE write a document and reset. -/
def expStep {Rho Kol : Type} (B : Nat) (s : ExpState Rho Kol) (page : Page Rho Kol) :
    ExpState Rho Kol :=
  let pg_count := s.pg_count + 1
  let columns := if pg_count = 1 then some page.ColumnInfo else s.columns
  let rows := s.rows ++ page.Rows
  if B ≤ pg_count then
    ⟨s.pg_nb + 1, 0, s.file_nb + 1, [], columns,
      s.docs ++ [⟨s.file_nb + 1, rows, columns⟩]⟩
  else
    ⟨s.pg_nb + 1, pg_count, s.file_nb, rows, columns, s.docs⟩

/-- The final flush after the page loop: if rows is non-empty, write one
more document (lines 133-135). -/
def expFinish {Rho Kol : Type} (s : ExpState Rho Kol) : ExpState Rho Kol :=
  if s.rows.isEmpty then s
  else ⟨s.pg_nb, s.pg_count, s.file_nb + 1, s.rows, s.columns,
    s.docs ++ [⟨s.file_nb + 1, s.rows, s.columns⟩]⟩

/-- Initial loop state: all counters 0, empty buffers, columns unset. -/
def expInit {Rho Kol : Type} : ExpState Rho Kol := ⟨0, 0, 0, [], none, []⟩

/-- The whole page-processing part of the exporter lambda_handler for one
sequence of query pages. -/
def runExporter {Rho Kol : Type} (B : Nat) (pages : List (Page Rho Kol)) :
    ExpState Rho Kol :=
  expFinish (pages.foldl (expStep B) expInit)

/-- Concatenation of the rows of a list of pages, in page order. -/
def joinRows {Rho Kol : Type} (pages : List (Page Rho Kol)) : List Rho :=
  (pages.map Page.Rows).flatten

/-- The document a chunk of pages is saved as: rows are the concatenated
rows of the chunk and ColumnInfo comes from the first page of the chunk. -/
def docOfChunk {Rho Kol : Type} (fnb : Nat) (c : List (Page Rho Kol)) : Doc Rho Kol :=
  ⟨fnb, joinRows c, c.head?.map Page.ColumnInfo⟩

/-- Number a list of page chunks into documents, starting at file number
start. -/
def numberDocs {Rho Kol : Type} (start : Nat) :
    List (List (Page Rho Kol)) → List (Doc Rho Kol)
  | [] => []
  | c :: cs => docOfChunk start c :: numberDocs (start + 1) cs

/-- Drop the final chunk when it is shorter than B pages and its rows are
empty: the exporter only flushes the trailing partial chunk when the row
buffer is non-empty. -/
def dropTailEmpty {Rho Kol : Type} (B : Nat) :
    List (List (Page Rho Kol)) → List (List (Page Rho Kol))
  | [] => []
  | [c] => if c.length < B ∧ (joinRows c).isEmpty then [] else [c]
  | c :: c2 :: cs => c :: dropTailEmpty B (c2 :: cs)

/-- The Timestream query string built in lambda_handler lines 105-108.
When a day filter is given, a WHERE clause restricting to that calendar
day is added before the ORDER BY clause. -/
def buildQuery (db tb : String) (filter : Option String) : String :=
  let q := "SELECT * FROM \"" ++ db ++ "\".\"" ++ tb ++ "\""
  let q := match filter with
    | some f => q ++ " WHERE date_trunc(\x27day\x27, time) = \x27" ++ f ++ "\x27"
    | none => q
  q ++ " ORDER BY time ASC"

/-- Result of processing one SQS record in the exporter: the query that
was issued and the documents that were written. -/
structure ExporterOutcome (Rho Kol : Type) where
  query : String
  docs : List (Doc Rho Kol)

/-- Processing of one SQS record by the exporter lambda_handler
(lines 97-136).  The body filter field is an Option String; a missing or
empty filter is falsy in Python and makes the handler raise a
RuntimeError before any query is issued.  Otherwise the query (always
carrying the WHERE day restriction, since filter is truthy at that
point) is executed and the returned pages are dumped. -/
def exporterRecordStep {Rho Kol : Type} (db tb : String) (B : Nat)
    (pages : List (Page Rho Kol)) (filter : Option String) :
    Except String (ExporterOutcome Rho Kol) :=
  match filter with
  | none => .error "event not correctly formatted. Read the docstring."
  | some f =>
    if f = "" then .error "event not correctly formatted. Read the docstring."
    else .ok ⟨buildQuery db tb (some f), (runExporter B pages).docs⟩

/-! ## Importer: lambda_timestream_load_from_dump_to_s3_json.py -/

/-- One cell of a dump row: the single key of the Python dict (such as
ScalarValue or NullValue) and the value carried when the key is
ScalarValue. -/
structure Cell where
  kind : String
  value : String

/-- One ColumnInfo entry of a dump document: the column name and the
scalar type stored under Type.ScalarType. -/
structure ColInfoEntry where
  Name : String
  ScalarType : String

/-- A Timestream dimension as produced by get_dim_template and filled in
by the row loop. -/
structure Dim where
  Name : String
  Value : String
  DimensionValueType : String

/-- A Timestream write record as produced by get_record_template and
filled in by the row loop. -/
structure TsRecord where
  Dimensions : List Dim
  MeasureName : String
  MeasureValue : String
  MeasureValueType : String
  Time : String
  TimeUnit : String

/-- get_record_template (lines 101-109). -/
def get_record_template : TsRecord := ⟨[], "", "", "", "", "MILLISECONDS"⟩

/-- get_dim_template (lines 112-117). -/
def get_dim_template : Dim := ⟨"", "", ""⟩

/-- Python str.startswith on the character sequences of the strings. -/
def startswith (pre s : String) : Bool := pre.data.isPrefixOf s.data

/-- Python str.endswith on the character sequences of the strings. -/
def endswith (suf s : String) : Bool := suf.data.isSuffixOf s.data

/-- Processing of one cell of one row (lines 159-186).  ts is the model
of get_timestamp composed with str(), the epoch-millisecond conversion
performed through dateutil; it is kept abstract here.  A cell whose kind
is not ScalarValue is skipped; a time cell sets Time; a measure_value
cell sets MeasureValue and MeasureValueType; a measure_name cell sets
MeasureName; every other cell appends a dimension. -/
def applyCell (ts : String → Int) (rec : TsRecord) (ci : ColInfoEntry) (cell : Cell) :
    TsRecord :=
  if cell.kind ≠ "ScalarValue" then rec
  else if ci.Name = "time" then
    ⟨rec.Dimensions, rec.MeasureName, rec.MeasureValue, rec.MeasureValueType,
      toString (ts cell.value), rec.TimeUnit⟩
  else if startswith "measure_value" ci.Name then
    ⟨rec.Dimensions, rec.MeasureName, cell.value, ci.ScalarType, rec.Time, rec.TimeUnit⟩
  else if ci.Name = "measure_name" then
    ⟨rec.Dimensions, cell.value, rec.MeasureValue, rec.MeasureValueType, rec.Time,
      rec.TimeUnit⟩
  else
    ⟨rec.Dimensions ++ [⟨ci.Name, cell.value, ci.ScalarType⟩], rec.MeasureName,
      rec.MeasureValue, rec.MeasureValueType, rec.Time, rec.TimeUnit⟩

/-- The per-row loop of lambda_handler (lines 158-186): start from the
record template and apply every cell, each cell paired positionally with
its ColumnInfo entry. -/
def processRow (ts : String → Int) (CI : List ColInfoEntry) (data : List Cell) :
    TsRecord :=
  (CI.zip data).foldl (fun r p => applyCell ts r p.1 p.2) get_record_template

/-- One row of a dump document, its Data list of cells. -/
structure QRow where
  Data : List Cell

/-- One dump document as read back from S3. -/
structure DumpObj where
  ColumnInfo : List ColInfoEntry
  Rows : List QRow

/-- Timestream service quota on records per write call (line 75). -/
def MAX_RECORDS : Nat := 100

/-- Outcome of one write_records call: success, a
RejectedRecordsException (handled inside write_to_timestream), or a
transport-level failure (re-raised as RuntimeError). -/
inductive WriteOutcome
  | success
  | rejected
  | transportFail
deriving DecidableEq

/-- Oracles for the external services used by the importer: the
describe_table precondition check, S3 get_object, write_records, and the
get_timestamp conversion. -/
structure ImportEnv where
  describeOk : Bool
  fetch : String → String → Option DumpObj
  writeOutcome : List TsRecord → WriteOutcome
  ts : String → Int

/-- Observable effects of one importer invocation: the S3 objects
fetched and the record batches passed to write_records. -/
structure ImpEffects where
  fetches : List (String × String)
  writes : List (List TsRecord)

/-- No effects yet. -/
def noEffects : ImpEffects := ⟨[], []⟩

/-- Sequential composition of effects. -/
def appendEffects (a b : ImpEffects) : ImpEffects :=
  ⟨a.fetches ++ b.fetches, a.writes ++ b.writes⟩

/-- write_to_timestream (lines 124-138): a RejectedRecordsException is
caught and only logged; any other exception is re-raised as a
RuntimeError. -/
def write_to_timestream (env : ImportEnv) (recs : List TsRecord) : Except String Unit :=
  match env.writeOutcome recs with
  | .transportFail => .error "Exception when writing to timestream"
  | _ => .ok ()

/-- The row/batching loop of the importer lambda_handler
(lines 157-199): append one reshaped record per row, flush to
write_records whenever the batch reaches MAX_RECORDS, and flush the
remaining partial batch at the end.  A transport failure of a write
aborts the processing of this document with an error; all issued write
calls are recorded in the effects. -/
def ingestRows (env : ImportEnv) (CI : List ColInfoEntry) :
    List QRow → List TsRecord → ImpEffects → Except String Unit × ImpEffects
  | [], records, eff =>
    if records.isEmpty then (.ok (), eff)
    else (write_to_timestream env records, ⟨eff.fetches, eff.writes ++ [records]⟩)
  | row :: rest, records, eff =>
    let records := records ++ [processRow env.ts CI row.Data]
    if records.length = MAX_RECORDS then
      match write_to_timestream env records with
      | .error e => (.error e, ⟨eff.fetches, eff.writes ++ [records]⟩)
      | .ok _ => ingestRows env CI rest [] ⟨eff.fetches, eff.writes ++ [records]⟩
    else ingestRows env CI rest records eff

/-- The write calls issued while ingesting one dump document, starting
from an empty batch and no prior effects. -/
def importCalls (env : ImportEnv) (obj : DumpObj) : List (List TsRecord) :=
  (ingestRows env obj.ColumnInfo obj.Rows [] noEffects).2.writes

/-- One SQS record consumed by the importer: its messageId and the
bucket and key messageAttributes (none models a missing attribute, whose
lookup raises a KeyError). -/
structure ImportSqsRecord where
  messageId : String
  bucketAttr : Option String
  keyAttr : Option String

/-- The try-block of the importer lambda_handler for one SQS record
(lines 145-200): read the bucket and key attributes, fetch the S3
object, then ingest its rows.  Every raised exception becomes an error
value together with the effects performed so far. -/
def processSqsRecord (env : ImportEnv) (r : ImportSqsRecord) :
    Except String Unit × ImpEffects :=
  match r.bucketAttr, r.keyAttr with
  | none, _ => (.error "KeyError: bucket", noEffects)
  | some _, none => (.error "KeyError: key", noEffects)
  | some b, some k =>
    match env.fetch b k with
    | none => (.error "Error when fetching the S3 object", ⟨[(b, k)], []⟩)
    | some obj => ingestRows env obj.ColumnInfo obj.Rows [] ⟨[(b, k)], []⟩

/-- The importer lambda_handler (lines 141-202): check_table_exists
raises a RuntimeError when describe_table fails, before any record is
touched; otherwise every record is processed in turn, each per-record
exception being caught and only logged, and the handler returns
normally. -/
def lambda_handler_import (env : ImportEnv) (recs : List ImportSqsRecord) :
    Except String Unit × ImpEffects :=
  if env.describeOk then
    (.ok (), recs.foldl (fun acc r => appendEffects acc (processSqsRecord env r).2)
      noEffects)
  else
    (.error "Exception raised when check DB and Table exist", noEffects)

/-! ## Queue to S3 handlers: lambda_dump_SQS_to_S3.py and
lambda_write_to_S3_from_SQS.py -/

/-- A Python JSON value as produced by json.loads. -/
inductive PyVal
  | pstr (s : String)
  | pnum (n : Int)
  | pbool (b : Bool)
  | pnone
  | plist (xs : List PyVal)
  | pobj (fields : List (String × PyVal))

/-- Python truthiness of a JSON value: empty string, zero, False, None
and empty containers are falsy. -/
def pyFalsy : PyVal → Bool
  | .pstr s => s == ""
  | .pnum n => n == 0
  | .pbool b => !b
  | .pnone => true
  | .plist xs => xs.isEmpty
  | .pobj fs => fs.isEmpty

/-- Python dict .get(k): raises AttributeError on a non-dict value,
otherwise returns the stored value when the key is present. -/
def pyGetOpt (v : PyVal) (k : String) : Except String (Option PyVal) :=
  match v with
  | .pobj fields => .ok (fields.lookup k)
  | _ => .error "AttributeError"

/-- Values accepted by the Python expression epoch/1000: numbers and
booleans divide, everything else raises a TypeError. -/
def pyDivisible : PyVal → Bool
  | .pnum _ => true
  | .pbool _ => true
  | _ => false

/-- Oracles for the external collaborators of the queue-to-S3 handlers:
json.loads, the success of s3.put_object on a payload, the success of
datetime.strptime on a timestamp string, and the current epoch
milliseconds used as a default. -/
structure S3QueueEnv where
  loads : String → Option PyVal
  putOk : PyVal → Bool
  strptime : String → Option Nat
  nowMs : Int

/-- One SQS record consumed by the queue-to-S3 handlers: its messageId
and optional body. -/
structure SqsRecord where
  messageId : String
  body : Option String

/-- The try-block of lambda_dump_SQS_to_S3.lambda_handler for one record
(lines 83-112), as a success predicate: the body must exist and be
non-empty, parse as JSON, carry a truthy Message string that itself
parses as JSON, and the put_object call must succeed. -/
def processDumpRecord (env : S3QueueEnv) (r : SqsRecord) : Bool :=
  match r.body with
  | none => false
  | some bs =>
    if bs = "" then false
    else match env.loads bs with
      | none => false
      | some bodyv =>
        match pyGetOpt bodyv "Message" with
        | .error _ => false
        | .ok msgOpt =>
          let msg := msgOpt.getD .pnone
          if pyFalsy msg then false
          else match msg with
            | .pstr s =>
              match env.loads s with
              | none => false
              | some payload => env.putOk payload
            | _ => false

/-- The try-block of lambda_write_to_S3_from_SQS.lambda_handler for one
record (lines 78-127), as a success predicate.  The prefix is the same
as processDumpRecord; then, with INSPECT set, the payload must carry
truthy timestamp, gateway, deviceName, epoch_ms and values fields and
the timestamp string must parse with strptime; without INSPECT, the
epoch_ms field (defaulted to the current time) must be numeric so that
epoch/1000 does not raise. -/
def processIotRecord (env : S3QueueEnv) (inspect : Bool) (r : SqsRecord) : Bool :=
  match r.body with
  | none => false
  | some bs =>
    if bs = "" then false
    else match env.loads bs with
      | none => false
      | some bodyv =>
        match pyGetOpt bodyv "Message" with
        | .error _ => false
        | .ok msgOpt =>
          let msg := msgOpt.getD .pnone
          if pyFalsy msg then false
          else match msg with
            | .pstr s =>
              match env.loads s with
              | none => false
              | some payload =>
                match payload with
                | .pobj fields =>
                  if inspect then
                    let timestring := (fields.lookup "timestamp").getD .pnone
                    if pyFalsy timestring then false
                    else if pyFalsy ((fields.lookup "gateway").getD .pnone) then false
                    else if pyFalsy ((fields.lookup "deviceName").getD .pnone) then false
                    else if pyFalsy ((fields.lookup "epoch_ms").getD .pnone) then false
                    else if pyFalsy ((fields.lookup "values").getD .pnone) then false
                    else match timestring with
                      | .pstr ts2 =>
                        match env.strptime ts2 with
                        | none => false
                        | some _ => env.putOk payload
                      | _ => false
                  else
                    let epoch := (fields.lookup "epoch_ms").getD (.pnum env.nowMs)
                    if pyDivisible epoch then env.putOk payload else false
                | _ => false
            | _ => false

/-- The shared bookkeeping of both queue-to-S3 handlers
(lines 71-119 and 64-134): first collect every messageId, then process
every record, removing the id from the list on success; the remaining
ids are returned as the batch item failures. -/
def runSqsBatch (ok : SqsRecord → Bool) (recs : List SqsRecord) : List String :=
  recs.foldl (fun acc r => if ok r then acc.erase r.messageId else acc)
    (recs.map SqsRecord.messageId)

/-- lambda_dump_SQS_to_S3.lambda_handler: the returned
batchItemFailures identifiers. -/
def lambda_handler_dump_queue (env : S3QueueEnv) (recs : List SqsRecord) : List String :=
  runSqsBatch (processDumpRecord env) recs

/-- lambda_write_to_S3_from_SQS.lambda_handler: the returned
batchItemFailures identifiers. -/
def lambda_handler_iot_queue (env : S3QueueEnv) (inspect : Bool)
    (recs : List SqsRecord) : List String :=
  runSqsBatch (processIotRecord env inspect) recs

/-! ## Fan-out: lambda_publish_timestream_dump_files_list_to_SQS.py -/

/-- One SQS message attribute value: StringValue and DataType. -/
structure SqsAttrValue where
  StringValue : String
  DataType : String

/-- The messageAttributes carried by each published message. -/
structure SqsAttrs where
  bucket : SqsAttrValue
  key : SqsAttrValue

/-- get_formatted_sqs_attributes (lines 60-70). -/
def get_formatted_sqs_attributes (key bucket : String) : SqsAttrs :=
  ⟨⟨bucket, "String"⟩, ⟨key, "String"⟩⟩

/-- One sqs.send_message call as issued by the fan-out handler. -/
structure OutMessage where
  QueueUrl : String
  MessageBody : String
  DelaySeconds : Nat
  MessageAttributes : SqsAttrs

/-- The listing loop of the fan-out lambda_handler (lines 77-88): keys
not ending in .json are skipped, every other key is published as one
message with the bucket and key in the messageAttributes. -/
def publishLoop (url bucket : String) : List String → List OutMessage
  | [] => []
  | key :: rest =>
    if endswith ".json" key then
      ⟨url, "See messageAttributes", 0, get_formatted_sqs_attributes key bucket⟩ ::
        publishLoop url bucket rest
    else publishLoop url bucket rest

/-- The fan-out lambda_handler applied to the listed keys of the bucket. -/
def lambda_handler_publish (url bucket : String) (contents : List String) :
    List OutMessage :=
  publishLoop url bucket contents

/-! ## Generic lemmas about specChunks -/

theorem specChunks_nil (B : Nat) : specChunks B ([] : List α) = [] := by
  simp [specChunks]

theorem specChunks_cons (B : Nat) (x : α) (xs : List α) :
    specChunks B (x :: xs) = (x :: xs.take (B - 1)) :: specChunks B (xs.drop (B - 1)) := by
  simp [specChunks]

theorem specChunks_flatten (B : Nat) (l : List α) : (specChunks B l).flatten = l := by
  induction l using specChunks.induct B with
  | case1 => simp [specChunks_nil]
  | case2 x xs ih =>
    rw [specChunks_cons, List.flatten_cons, ih]
    simp [List.take_append_drop]

theorem specChunks_small (B : Nat) (l : List α) (hne : l ≠ []) (hlen : l.length ≤ B) :
    specChunks B l = [l] := by
  cases l with
  | nil => exact absurd rfl hne
  | cons x xs =>
    rw [specChunks_cons]
    have h1 : xs.length ≤ B - 1 := by
      simp only [List.length_cons] at hlen; omega
    rw [List.take_of_length_le h1, List.drop_eq_nil_of_le h1, specChunks_nil]

theorem specChunks_length (B : Nat) (hB : 1 ≤ B) (l : List α) :
    (specChunks B l).length = (l.length + B - 1) / B := by
  induction l using specChunks.induct B with
  | case1 =>
    rw [specChunks_nil]
    have h0 : (([] : List α).length + B - 1) / B = 0 := Nat.div_eq_of_lt (by simp; omega)
    rw [h0, List.length_nil]
  | case2 x xs ih =>
    rw [specChunks_cons, List.length_cons, ih, List.length_drop, List.length_cons]
    have hr : xs.length + 1 + B - 1 = xs.length + B := by omega
    rw [hr, Nat.add_div_right _ hB]
    by_cases hx : B - 1 ≤ xs.length
    · have h2 : xs.length - (B - 1) + B - 1 = xs.length := by omega
      rw [h2]
    · have h2 : xs.length - (B - 1) + B - 1 < B := by omega
      have h3 : xs.length < B := by omega
      rw [Nat.div_eq_of_lt h2, Nat.div_eq_of_lt h3]

theorem specChunks_mem_ne_nil (B : Nat) (l : List α) :
    ∀ c ∈ specChunks B l, c ≠ [] := by
  induction l using specChunks.induct B with
  | case1 => simp [specChunks_nil]
  | case2 x xs ih =>
    rw [specChunks_cons]
    intro c hc
    rcases List.mem_cons.mp hc with h | h
    · subst h; simp
    · exact ih c h

theorem specChunks_mem_length_le (B : Nat) (hB : 1 ≤ B) (l : List α) :
    ∀ c ∈ specChunks B l, c.length ≤ B := by
  induction l using specChunks.induct B with
  | case1 => simp [specChunks_nil]
  | case2 x xs ih =>
    rw [specChunks_cons]
    intro c hc
    rcases List.mem_cons.mp hc with h | h
    · subst h; simp [List.length_take]; omega
    · exact ih c h

theorem specChunks_mem_slice (B : Nat) (hB : 1 ≤ B) (l : List α) :
    ∀ c ∈ specChunks B l, ∃ i, c = (l.drop i).take B := by
  induction l using specChunks.induct B with
  | case1 => simp [specChunks_nil]
  | case2 x xs ih =>
    rw [specChunks_cons]
    intro c hc
    rcases List.mem_cons.mp hc with h | h
    · refine ⟨0, ?_⟩
      rw [List.drop_zero]
      subst h
      cases B with
      | zero => omega
      | succ n => rw [List.take_succ_cons]; simp
    · obtain ⟨i, hi⟩ := ih c h
      cases B with
      | zero => omega
      | succ n =>
        refine ⟨i + (n + 1), ?_⟩
        have h1 : (x :: xs).drop (i + (n + 1)) = xs.drop (i + n) := by
          have h2 : i + (n + 1) = (i + n) + 1 := by omega
          rw [h2, List.drop_succ_cons]
        rw [h1]
        have h3 : (n + 1 - 1) = n := by omega
        rw [h3] at hi
        rw [hi, List.drop_drop, Nat.add_comm n i]

theorem specChunks_append_full (B : Nat) (hB : 1 ≤ B) (c rest : List α)
    (hc : c.length = B) :
    specChunks B (c ++ rest) = c :: specChunks B rest := by
  cases c with
  | nil =>
    simp only [List.length_nil] at hc
    omega
  | cons x xs =>
    rw [List.cons_append, specChunks_cons]
    have hxs : xs.length = B - 1 := by
      simp only [List.length_cons] at hc; omega
    rw [List.take_left' hxs, List.drop_left' hxs]

theorem specChunks_cons_ne_nil (B : Nat) (l : List α) (hl : l ≠ []) :
    specChunks B l ≠ [] := by
  cases l with
  | nil => exact absurd rfl hl
  | cons x xs => rw [specChunks_cons]; simp

theorem getLast?_cons_ne (a : α) (l : List α) (h : l ≠ []) :
    (a :: l).getLast? = l.getLast? := by
  cases l with
  | nil => exact absurd rfl h
  | cons b bs => exact List.getLast?_cons_cons

theorem specChunks_dropLast_full (B : Nat) (hB : 1 ≤ B) (l : List α) :
    ∀ c ∈ (specChunks B l).dropLast, c.length = B := by
  induction l using specChunks.induct B with
  | case1 => simp [specChunks_nil]
  | case2 x xs ih =>
    rw [specChunks_cons]
    by_cases hd : xs.drop (B - 1) = []
    · rw [hd, specChunks_nil]
      simp
    · rw [List.dropLast_cons_of_ne_nil (specChunks_cons_ne_nil B _ hd)]
      intro c hc
      rcases List.mem_cons.mp hc with h | h
      · subst h
        have hlen : B - 1 < xs.length := by
          by_contra hcon
          exact hd (List.drop_eq_nil_of_le (by omega))
        rw [List.length_cons, List.length_take, Nat.min_eq_left (by omega)]
        omega
      · exact ih c h

theorem specChunks_getLast_len (B : Nat) (hB : 1 ≤ B) (l : List α) (hl : l ≠ []) :
    (specChunks B l).getLast?.map List.length
      = some (if l.length % B = 0 then B else l.length % B) := by
  induction l using specChunks.induct B with
  | case1 => exact absurd rfl hl
  | case2 x xs ih =>
    rw [specChunks_cons]
    by_cases hd : xs.drop (B - 1) = []
    · have hxs : xs.length ≤ B - 1 := by
        have h1 := congrArg List.length hd
        simp only [List.length_drop, List.length_nil] at h1
        omega
      rw [hd, specChunks_nil]
      have h2 : ([x :: xs.take (B - 1)] : List (List α)).getLast? = some (x :: xs.take (B - 1)) := rfl
      rw [h2, Option.map_some', List.length_cons, List.take_of_length_le hxs, List.length_cons]
      by_cases heq : xs.length + 1 = B
      · rw [heq, Nat.mod_self, if_pos rfl]
      · have hlt : xs.length + 1 < B := by omega
        rw [Nat.mod_eq_of_lt hlt, if_neg (show ¬ xs.length + 1 = 0 by omega)]
    · have hne := specChunks_cons_ne_nil B _ hd
      rw [getLast?_cons_ne _ _ hne]
      have hgt : B - 1 < xs.length := by
        by_contra hcon
        exact hd (List.drop_eq_nil_of_le (by omega))
      have hihr := ih hd
      rw [List.length_drop] at hihr
      have hmod : (xs.length - (B - 1)) % B = (xs.length + 1) % B := by
        have h1 : xs.length + 1 = (xs.length - (B - 1)) + B := by omega
        rw [h1, Nat.add_mod_right]
      rw [hmod] at hihr
      rw [hihr, List.length_cons]

/-! ## Exporter lemmas -/

theorem joinRows_nil {Rho Kol : Type} : joinRows ([] : List (Page Rho Kol)) = [] := rfl

theorem joinRows_append {Rho Kol : Type} (a b : List (Page Rho Kol)) :
    joinRows (a ++ b) = joinRows a ++ joinRows b := by
  simp [joinRows]

theorem joinRows_singleton {Rho Kol : Type} (p : Page Rho Kol) :
    joinRows [p] = p.Rows := by
  simp [joinRows]

theorem joinRows_flatten {Rho Kol : Type} (cs : List (List (Page Rho Kol))) :
    (cs.map joinRows).flatten = joinRows cs.flatten := by
  induction cs with
  | nil => rfl
  | cons c cs ih =>
    rw [List.map_cons, List.flatten_cons, List.flatten_cons, joinRows_append, ih]

theorem numberDocs_length {Rho Kol : Type} :
    ∀ (cs : List (List (Page Rho Kol))) (start : Nat),
      (numberDocs start cs).length = cs.length := by
  intro cs
  induction cs with
  | nil => intro start; rfl
  | cons c cs ih =>
    intro start
    rw [numberDocs, List.length_cons, List.length_cons, ih]

theorem numberDocs_map_rows {Rho Kol : Type} :
    ∀ (cs : List (List (Page Rho Kol))) (start : Nat),
      (numberDocs start cs).map Doc.Rows = cs.map joinRows := by
  intro cs
  induction cs with
  | nil => intro start; rfl
  | cons c cs ih =>
    intro start
    rw [numberDocs, List.map_cons, List.map_cons, ih]
    rfl

theorem numberDocs_mem {Rho Kol : Type} :
    ∀ (cs : List (List (Page Rho Kol))) (start : Nat) (d : Doc Rho Kol),
      d ∈ numberDocs start cs → ∃ c ∈ cs, ∃ k, d = docOfChunk k c := by
  intro cs
  induction cs with
  | nil => intro start d hd; exact absurd hd (List.not_mem_nil d)
  | cons c cs ih =>
    intro start d hd
    rw [numberDocs] at hd
    rcases List.mem_cons.mp hd with h | h
    · exact ⟨c, List.mem_cons_self c cs, start, h⟩
    · obtain ⟨c2, hc2, k, hk⟩ := ih (start + 1) d h
      exact ⟨c2, List.mem_cons_of_mem c hc2, k, hk⟩

theorem dropTailEmpty_cons_full {Rho Kol : Type} (B : Nat) (c : List (Page Rho Kol))
    (hc : c.length = B) (cs : List (List (Page Rho Kol))) :
    dropTailEmpty B (c :: cs) = c :: dropTailEmpty B cs := by
  cases cs with
  | nil =>
    simp only [dropTailEmpty]
    rw [if_neg]
    intro h
    omega
  | cons c2 cs2 => rfl

theorem dropTailEmpty_mem {Rho Kol : Type} (B : Nat) :
    ∀ (cs : List (List (Page Rho Kol))) (c : List (Page Rho Kol)),
      c ∈ dropTailEmpty B cs → c ∈ cs := by
  intro cs
  induction cs with
  | nil => intro c hc; exact absurd hc (List.not_mem_nil c)
  | cons c0 cs0 ih =>
    intro c hc
    cases cs0 with
    | nil =>
      simp only [dropTailEmpty] at hc
      split at hc
      · exact absurd hc (List.not_mem_nil c)
      · exact hc
    | cons c1 cs1 =>
      simp only [dropTailEmpty] at hc
      rcases List.mem_cons.mp hc with h | h
      · rw [h]; exact List.mem_cons_self c0 (c1 :: cs1)
      · exact List.mem_cons_of_mem c0 (ih c h)

theorem dropTailEmpty_eq_self {Rho Kol : Type} (B : Nat) (hB : 1 ≤ B)
    (l : List (Page Rho Kol)) :
    (l.length % B = 0 ∨ joinRows (l.drop (B * (l.length / B))) ≠ []) →
    dropTailEmpty B (specChunks B l) = specChunks B l := by
  induction l using specChunks.induct B with
  | case1 =>
    intro htail
    rw [specChunks_nil]
    rfl
  | case2 x xs ih =>
    intro htail
    by_cases hsm : (x :: xs).length ≤ B
    · rw [specChunks_small B (x :: xs) (by simp) hsm]
      by_cases heq : (x :: xs).length = B
      · simp only [dropTailEmpty]
        rw [if_neg]
        intro h
        omega
      · have hlt : (x :: xs).length < B := by omega
        have hmod : (x :: xs).length % B = (x :: xs).length := Nat.mod_eq_of_lt hlt
        have hdiv : (x :: xs).length / B = 0 := Nat.div_eq_of_lt hlt
        rcases htail with h0 | h0
        · rw [hmod] at h0
          simp at h0
        · rw [hdiv, Nat.mul_zero, List.drop_zero] at h0
          simp only [dropTailEmpty]
          rw [if_neg]
          intro h
          exact h0 (List.isEmpty_iff.mp h.2)
    · have hgt : B < (x :: xs).length := by omega
      have hlc : (x :: xs.take (B - 1)).length = B := by
        rw [List.length_cons, List.length_take, Nat.min_eq_left (by simp at hgt; omega)]
        omega
      have hdropB : (x :: xs).drop B = xs.drop (B - 1) := by
        cases B with
        | zero => omega
        | succ n => rw [List.drop_succ_cons]; simp
      rw [specChunks_cons, dropTailEmpty_cons_full B _ hlc]
      have htail2 : (xs.drop (B - 1)).length % B = 0 ∨
          joinRows ((xs.drop (B - 1)).drop (B * ((xs.drop (B - 1)).length / B))) ≠ [] := by
        have hlen2 : (xs.drop (B - 1)).length = (x :: xs).length - B := by
          rw [List.length_drop, List.length_cons]
          omega
        have hmod2 : ((x :: xs).length - B) % B = (x :: xs).length % B := by
          have h1 : (x :: xs).length = ((x :: xs).length - B) + B := by omega
          conv_rhs => rw [h1]
          rw [Nat.add_mod_right]
        rcases htail with h0 | h0
        · left
          rw [hlen2, hmod2]
          exact h0
        · right
          rw [hlen2]
          have hdd : (xs.drop (B - 1)).drop (B * (((x :: xs).length - B) / B))
              = (x :: xs).drop (B * ((x :: xs).length / B)) := by
            rw [← hdropB, List.drop_drop]
            have h1 : (x :: xs).length / B = ((x :: xs).length - B) / B + 1 := by
              rw [Nat.div_eq_sub_div hB (by omega)]
            rw [h1, Nat.mul_add, Nat.mul_one, Nat.add_comm]
          rw [hdd]
          exact h0
      rw [ih htail2]

theorem exporter_loop_docs {Rho Kol : Type} (B : Nat) (hB : 1 ≤ B) :
    ∀ (rest cur : List (Page Rho Kol)) (s : ExpState Rho Kol),
      s.pg_count = cur.length →
      s.rows = joinRows cur →
      cur.length < B →
      (∀ p, cur.head? = some p → s.columns = some p.ColumnInfo) →
      (expFinish (rest.foldl (expStep B) s)).docs
        = s.docs ++ numberDocs (s.file_nb + 1) (dropTailEmpty B (specChunks B (cur ++ rest))) := by
  intro rest
  induction rest with
  | nil =>
    intro cur s hcount hrows hcur hco
    rw [List.foldl_nil, List.append_nil]
    cases cur with
    | nil =>
      have hre : s.rows.isEmpty = true := by rw [hrows]; rfl
      simp only [expFinish, hre, if_true]
      rw [specChunks_nil]
      simp [dropTailEmpty, numberDocs]
    | cons p cs =>
      rw [specChunks_small B (p :: cs) (by simp) (by omega)]
      simp only [dropTailEmpty]
      by_cases hre : (joinRows (p :: cs)).isEmpty = true
      · have hre2 : s.rows.isEmpty = true := by rw [hrows]; exact hre
        simp only [expFinish, hre2, if_true]
        rw [if_pos ⟨hcur, hre⟩]
        simp [numberDocs]
      · have hre2 : ¬ s.rows.isEmpty = true := by rw [hrows]; exact hre
        simp only [expFinish, hre2, if_false]
        rw [if_neg (show ¬((p :: cs).length < B ∧ (joinRows (p :: cs)).isEmpty = true)
          from fun h => hre h.2)]
        simp only [numberDocs, docOfChunk, List.head?_cons]
        rw [hrows, hco p rfl]
        rfl
  | cons pg rest ih =>
    intro cur s hcount hrows hcur hco
    rw [List.foldl_cons]
    by_cases hfull : B ≤ s.pg_count + 1
    · have hlen : cur.length + 1 = B := by omega
      have hstep : expStep B s pg = ⟨s.pg_nb + 1, 0, s.file_nb + 1, [],
          (if s.pg_count + 1 = 1 then some pg.ColumnInfo else s.columns),
          s.docs ++ [⟨s.file_nb + 1, s.rows ++ pg.Rows,
            (if s.pg_count + 1 = 1 then some pg.ColumnInfo else s.columns)⟩]⟩ := by
        simp only [expStep, if_pos hfull]
      have hc2 : (if s.pg_count + 1 = 1 then some pg.ColumnInfo else s.columns)
          = (cur ++ [pg]).head?.map Page.ColumnInfo := by
        cases cur with
        | nil => rw [hcount]; simp
        | cons p cs =>
          rw [hcount]
          rw [if_neg (by simp)]
          rw [List.cons_append, List.head?_cons, Option.map_some', hco p rfl]
      rw [hstep, hc2]
      have hih := ih [] ⟨s.pg_nb + 1, 0, s.file_nb + 1, [],
          (cur ++ [pg]).head?.map Page.ColumnInfo,
          s.docs ++ [⟨s.file_nb + 1, s.rows ++ pg.Rows,
            (cur ++ [pg]).head?.map Page.ColumnInfo⟩]⟩
        rfl rfl (by simp only [List.length_nil]; omega) (by intro p hp; simp at hp)
      simp only [List.nil_append] at hih
      rw [hih]
      have hsplit : cur ++ pg :: rest = (cur ++ [pg]) ++ rest := by simp
      rw [hsplit, specChunks_append_full B hB (cur ++ [pg]) rest (by simp; omega)]
      rw [dropTailEmpty_cons_full B (cur ++ [pg]) (by simp; omega)]
      simp only [numberDocs, docOfChunk]
      rw [hrows, ← joinRows_singleton pg, ← joinRows_append]
      simp
    · have hstep : expStep B s pg = ⟨s.pg_nb + 1, s.pg_count + 1, s.file_nb,
          s.rows ++ pg.Rows,
          (if s.pg_count + 1 = 1 then some pg.ColumnInfo else s.columns), s.docs⟩ := by
        simp only [expStep, if_neg hfull]
      have hc2 : ∀ p, (cur ++ [pg]).head? = some p →
          (if s.pg_count + 1 = 1 then some pg.ColumnInfo else s.columns)
            = some p.ColumnInfo := by
        cases cur with
        | nil =>
          intro p hp
          simp only [List.nil_append, List.head?_cons, Option.some_inj] at hp
          rw [hcount,
            if_pos (show ([] : List (Page Rho Kol)).length + 1 = 1 from rfl), hp]
        | cons q cs =>
          intro p hp
          simp only [List.cons_append, List.head?_cons, Option.some_inj] at hp
          rw [hcount, if_neg (by simp), hco q rfl, hp]
      rw [hstep]
      have hih := ih (cur ++ [pg]) ⟨s.pg_nb + 1, s.pg_count + 1, s.file_nb,
          s.rows ++ pg.Rows,
          (if s.pg_count + 1 = 1 then some pg.ColumnInfo else s.columns), s.docs⟩
        (by simp [hcount]) (by rw [joinRows_append, joinRows_singleton, hrows])
        (by simp; omega) hc2
      simp only at hih
      rw [hih]
      have hsplit : (cur ++ [pg]) ++ rest = cur ++ pg :: rest := by simp
      rw [hsplit]

theorem runExporter_docs {Rho Kol : Type} (B : Nat) (hB : 1 ≤ B)
    (pages : List (Page Rho Kol)) :
    (runExporter B pages).docs = numberDocs 1 (dropTailEmpty B (specChunks B pages)) := by
  have h := exporter_loop_docs B hB pages [] expInit rfl rfl
    (by simp only [List.length_nil]; omega) (by intro p hp; simp at hp)
  rw [List.nil_append] at h
  rw [runExporter, h]
  rfl

/-! ## Claim theorems for the exporter -/

/-- C1, amended: for every BLOCKSIZE B at least 1 and every page
sequence whose trailing partial chunk (the last P mod B pages) is
either absent or contains at least one row, the exporter writes exactly
ceil(P/B) documents, namely the sequentially numbered B-page chunks of
the page sequence; each document holds the concatenated rows of at most
B consecutive pages and all documents together hold exactly the rows of
all P pages in query order.  The proviso is forced by the final
"if rows" guard of the code, which skips a trailing chunk whose pages
carry no rows at all; see the counterexample. -/
theorem exporter_chunking {Rho Kol : Type} (B : Nat) (pages : List (Page Rho Kol))
    (hB : 1 ≤ B)
    (htail : pages.length % B = 0 ∨
      joinRows (pages.drop (B * (pages.length / B))) ≠ []) :
    (runExporter B pages).docs = numberDocs 1 (specChunks B pages)
    ∧ (runExporter B pages).docs.length = (pages.length + B - 1) / B
    ∧ ((runExporter B pages).docs.map Doc.Rows).flatten = joinRows pages
    ∧ ∀ d ∈ (runExporter B pages).docs,
        ∃ i, d.Rows = joinRows ((pages.drop i).take B) := by
  have hdocs : (runExporter B pages).docs = numberDocs 1 (specChunks B pages) := by
    rw [runExporter_docs B hB pages, dropTailEmpty_eq_self B hB pages htail]
  refine ⟨hdocs, ?_, ?_, ?_⟩
  · rw [hdocs, numberDocs_length, specChunks_length B hB]
  · rw [hdocs, numberDocs_map_rows, joinRows_flatten, specChunks_flatten]
  · intro d hd
    rw [hdocs] at hd
    obtain ⟨c, hc, k, hk⟩ := numberDocs_mem (specChunks B pages) 1 d hd
    obtain ⟨i, hi⟩ := specChunks_mem_slice B hB pages c hc
    refine ⟨i, ?_⟩
    rw [hk, show (docOfChunk k c).Rows = joinRows c from rfl, hi]

/-- C1, counterexample to the claim as stated: with BLOCKSIZE 2 and a
single query page carrying no rows, the exporter writes 0 documents
although ceil(1/2) = 1, because the trailing chunk is flushed only when
the accumulated row buffer is non-empty. -/
theorem exporter_chunking_counterexample :
    (runExporter 2 [(⟨0, []⟩ : Page Nat Nat)]).docs.length
      ≠ ([(⟨0, []⟩ : Page Nat Nat)].length + 2 - 1) / 2 := by
  decide

/-- C1, witness: the amended theorem applied to one page with one row
and BLOCKSIZE 1. -/
theorem exporter_chunking_witness :
    (1 ≤ 1 ∧
      (([⟨5, [7]⟩] : List (Page Nat Nat)).length % 1 = 0 ∨
        joinRows (([⟨5, [7]⟩] : List (Page Nat Nat)).drop
          (1 * (([⟨5, [7]⟩] : List (Page Nat Nat)).length / 1))) ≠ []))
    ∧ ((runExporter 1 ([⟨5, [7]⟩] : List (Page Nat Nat))).docs
        = numberDocs 1 (specChunks 1 ([⟨5, [7]⟩] : List (Page Nat Nat)))
      ∧ (runExporter 1 ([⟨5, [7]⟩] : List (Page Nat Nat))).docs.length
          = (([⟨5, [7]⟩] : List (Page Nat Nat)).length + 1 - 1) / 1
      ∧ ((runExporter 1 ([⟨5, [7]⟩] : List (Page Nat Nat))).docs.map Doc.Rows).flatten
          = joinRows ([⟨5, [7]⟩] : List (Page Nat Nat))
      ∧ ∀ d ∈ (runExporter 1 ([⟨5, [7]⟩] : List (Page Nat Nat))).docs,
          ∃ i, d.Rows = joinRows ((([⟨5, [7]⟩] : List (Page Nat Nat)).drop i).take 1)) :=
  ⟨⟨by decide, Or.inl (by decide)⟩,
    exporter_chunking 1 [⟨5, [7]⟩] (by decide) (Or.inl (by decide))⟩

theorem numberDocs_get {Rho Kol : Type} :
    ∀ (cs : List (List (Page Rho Kol))) (start j : Nat)
      (h : j < (numberDocs start cs).length),
      ∃ (hc : j < cs.length),
        (numberDocs start cs).get ⟨j, h⟩ = docOfChunk (start + j) (cs.get ⟨j, hc⟩) := by
  intro cs
  induction cs with
  | nil =>
    intro start j h
    exact absurd h (by simp [numberDocs])
  | cons c cs ih =>
    intro start j h
    cases j with
    | zero => exact ⟨by simp, rfl⟩
    | succ k =>
      have hk : k < (numberDocs (start + 1) cs).length := by
        rw [numberDocs, List.length_cons] at h
        omega
      obtain ⟨hc, hget⟩ := ih (start + 1) k hk
      refine ⟨by rw [List.length_cons]; omega, ?_⟩
      have hstep : (numberDocs start (c :: cs)).get ⟨k + 1, h⟩
          = (numberDocs (start + 1) cs).get ⟨k, hk⟩ := rfl
      rw [hstep, hget]
      have harith : start + 1 + k = start + (k + 1) := by omega
      rw [harith]
      rfl

/-- C3: the documents written by the exporter are exactly the numbered
page chunks kept by the final flush, in order, and at every position j
the j-th document holds the concatenated rows of the j-th written chunk
while its ColumnInfo is the ColumnInfo of the first page of that same
chunk (the loop re-captures columns whenever pg_count is 1, so this
holds for every chunk, the final short one included). -/
theorem exporter_columninfo {Rho Kol : Type} (B : Nat) (pages : List (Page Rho Kol))
    (hB : 1 ≤ B) :
    (runExporter B pages).docs
      = numberDocs 1 (dropTailEmpty B (specChunks B pages))
    ∧ ∀ (j : Nat) (hj : j < (runExporter B pages).docs.length),
        ∃ (hc : j < (dropTailEmpty B (specChunks B pages)).length) (p : Page Rho Kol),
          ((dropTailEmpty B (specChunks B pages)).get ⟨j, hc⟩).head? = some p
          ∧ ((runExporter B pages).docs.get ⟨j, hj⟩).Rows
              = joinRows ((dropTailEmpty B (specChunks B pages)).get ⟨j, hc⟩)
          ∧ ((runExporter B pages).docs.get ⟨j, hj⟩).ColumnInfo
              = some p.ColumnInfo := by
  have hdocs := runExporter_docs B hB pages
  have hnum : ∀ (j : Nat)
      (hj : j < (numberDocs 1 (dropTailEmpty B (specChunks B pages))).length),
      ∃ (hc : j < (dropTailEmpty B (specChunks B pages)).length) (p : Page Rho Kol),
        ((dropTailEmpty B (specChunks B pages)).get ⟨j, hc⟩).head? = some p
        ∧ ((numberDocs 1 (dropTailEmpty B (specChunks B pages))).get ⟨j, hj⟩).Rows
            = joinRows ((dropTailEmpty B (specChunks B pages)).get ⟨j, hc⟩)
        ∧ ((numberDocs 1 (dropTailEmpty B (specChunks B pages))).get ⟨j, hj⟩).ColumnInfo
            = some p.ColumnInfo := by
    intro j hj
    obtain ⟨hc, hget⟩ := numberDocs_get (dropTailEmpty B (specChunks B pages)) 1 j hj
    have hmem : (dropTailEmpty B (specChunks B pages)).get ⟨j, hc⟩
        ∈ specChunks B pages :=
      dropTailEmpty_mem B _ _ (List.get_mem _ _ _)
    have hne := specChunks_mem_ne_nil B pages _ hmem
    cases hch : (dropTailEmpty B (specChunks B pages)).get ⟨j, hc⟩ with
    | nil => exact absurd hch hne
    | cons p cs =>
      refine ⟨hc, p, by rw [hch]; rfl, ?_, ?_⟩
      · rw [hget, hch]
        rfl
      · rw [hget, hch]
        rfl
  have hnum2 := hnum
  rw [← hdocs] at hnum2
  exact ⟨hdocs, hnum2⟩

/-- C3, witness: the theorem applied to two pages with distinct
ColumnInfo and BLOCKSIZE 2. -/
theorem exporter_columninfo_witness :
    1 ≤ 2
    ∧ ((runExporter 2 ([⟨5, [7]⟩, ⟨6, [8]⟩] : List (Page Nat Nat))).docs
        = numberDocs 1 (dropTailEmpty 2
            (specChunks 2 ([⟨5, [7]⟩, ⟨6, [8]⟩] : List (Page Nat Nat))))
      ∧ ∀ (j : Nat)
          (hj : j < (runExporter 2
            ([⟨5, [7]⟩, ⟨6, [8]⟩] : List (Page Nat Nat))).docs.length),
          ∃ (hc : j < (dropTailEmpty 2
              (specChunks 2 ([⟨5, [7]⟩, ⟨6, [8]⟩] : List (Page Nat Nat)))).length)
            (p : Page Nat Nat),
            ((dropTailEmpty 2 (specChunks 2
                ([⟨5, [7]⟩, ⟨6, [8]⟩] : List (Page Nat Nat)))).get ⟨j, hc⟩).head?
              = some p
            ∧ ((runExporter 2
                ([⟨5, [7]⟩, ⟨6, [8]⟩] : List (Page Nat Nat))).docs.get ⟨j, hj⟩).Rows
              = joinRows ((dropTailEmpty 2 (specChunks 2
                  ([⟨5, [7]⟩, ⟨6, [8]⟩] : List (Page Nat Nat)))).get ⟨j, hc⟩)
            ∧ ((runExporter 2
                ([⟨5, [7]⟩, ⟨6, [8]⟩]
                  : List (Page Nat Nat))).docs.get ⟨j, hj⟩).ColumnInfo
              = some p.ColumnInfo) :=
  ⟨by decide, exporter_columninfo 2 [⟨5, [7]⟩, ⟨6, [8]⟩] (by decide)⟩

/-- C7, counterexample to the claim as stated: an invocation whose
message carries no day filter makes the exporter raise the RuntimeError
of lines 100-103 instead of completing with an unfiltered query. -/
theorem exporter_filter_counterexample :
    exporterRecordStep "db" "tb" 1 ([] : List (Page Nat Nat)) none
      = Except.error "event not correctly formatted. Read the docstring." := rfl

/-- C7, amended: a missing or empty day filter is rejected: the handler
raises the RuntimeError before issuing any query and writes nothing;
only an invocation with a non-empty filter completes, and its query
then always carries the WHERE day restriction. -/
theorem exporter_filter_required {Rho Kol : Type} (db tb : String) (B : Nat)
    (pages : List (Page Rho Kol)) (f : String) (hf : f ≠ "") :
    exporterRecordStep db tb B pages none
      = Except.error "event not correctly formatted. Read the docstring."
    ∧ exporterRecordStep db tb B pages (some "")
      = Except.error "event not correctly formatted. Read the docstring."
    ∧ exporterRecordStep db tb B pages (some f)
      = Except.ok ⟨buildQuery db tb (some f), (runExporter B pages).docs⟩ := by
  refine ⟨rfl, ?_, ?_⟩
  · simp [exporterRecordStep]
  · simp [exporterRecordStep, hf]

/-- C7, witness: the amended theorem applied to the day filter
2022-01-01 of the docstring example. -/
theorem exporter_filter_required_witness :
    ("2022-01-01" : String) ≠ ""
    ∧ (exporterRecordStep "db" "tb" 1 ([] : List (Page Nat Nat)) none
        = Except.error "event not correctly formatted. Read the docstring."
      ∧ exporterRecordStep "db" "tb" 1 ([] : List (Page Nat Nat)) (some "")
        = Except.error "event not correctly formatted. Read the docstring."
      ∧ exporterRecordStep "db" "tb" 1 ([] : List (Page Nat Nat)) (some "2022-01-01")
        = Except.ok ⟨buildQuery "db" "tb" (some "2022-01-01"),
            (runExporter 1 ([] : List (Page Nat Nat))).docs⟩) :=
  ⟨by decide, exporter_filter_required "db" "tb" 1 [] "2022-01-01" (by decide)⟩

/-! ## Importer lemmas -/

theorem write_ok (env : ImportEnv)
    (hw : ∀ b, env.writeOutcome b ≠ WriteOutcome.transportFail)
    (recs : List TsRecord) : write_to_timestream env recs = Except.ok () := by
  unfold write_to_timestream
  cases h : env.writeOutcome recs with
  | success => rfl
  | rejected => rfl
  | transportFail => exact absurd h (hw recs)

theorem ingestRows_spec (env : ImportEnv) (CI : List ColInfoEntry)
    (hw : ∀ b, env.writeOutcome b ≠ WriteOutcome.transportFail) :
    ∀ (rows : List QRow) (cur : List TsRecord) (eff : ImpEffects),
      cur.length < MAX_RECORDS →
      ingestRows env CI rows cur eff
        = (Except.ok (), ⟨eff.fetches,
            eff.writes ++ specChunks MAX_RECORDS
              (cur ++ rows.map (fun r => processRow env.ts CI r.Data))⟩) := by
  intro rows
  induction rows with
  | nil =>
    intro cur eff hcur
    cases cur with
    | nil =>
      simp only [ingestRows, List.isEmpty_nil, if_true, List.map_nil, List.append_nil,
        specChunks_nil, List.append_nil]
    | cons c cs =>
      simp only [ingestRows, List.isEmpty_cons, Bool.false_eq_true, if_false]
      rw [write_ok env hw]
      rw [List.map_nil, List.append_nil, specChunks_small MAX_RECORDS (c :: cs)
        (by simp) (by omega)]
  | cons row rest ih =>
    intro cur eff hcur
    simp only [ingestRows]
    by_cases hlen : (cur ++ [processRow env.ts CI row.Data]).length = MAX_RECORDS
    · rw [if_pos hlen, write_ok env hw]
      rw [ih [] ⟨eff.fetches, eff.writes ++ [cur ++ [processRow env.ts CI row.Data]]⟩
        (by simp [MAX_RECORDS])]
      rw [List.map_cons]
      have hsplit : cur ++ processRow env.ts CI row.Data ::
          rest.map (fun r => processRow env.ts CI r.Data)
          = (cur ++ [processRow env.ts CI row.Data]) ++
            rest.map (fun r => processRow env.ts CI r.Data) := by simp
      rw [hsplit, specChunks_append_full MAX_RECORDS (by simp [MAX_RECORDS])
        _ _ hlen]
      simp
    · rw [if_neg hlen]
      rw [ih (cur ++ [processRow env.ts CI row.Data]) eff (by simp at hlen ⊢; omega)]
      rw [List.map_cons]
      have hsplit : cur ++ processRow env.ts CI row.Data ::
          rest.map (fun r => processRow env.ts CI r.Data)
          = (cur ++ [processRow env.ts CI row.Data]) ++
            rest.map (fun r => processRow env.ts CI r.Data) := by simp
      rw [hsplit]

theorem importCalls_eq (env : ImportEnv) (obj : DumpObj)
    (hw : ∀ b, env.writeOutcome b ≠ WriteOutcome.transportFail) :
    importCalls env obj
      = specChunks MAX_RECORDS
          (obj.Rows.map (fun r => processRow env.ts obj.ColumnInfo r.Data)) := by
  unfold importCalls
  rw [ingestRows_spec env obj.ColumnInfo hw obj.Rows [] noEffects
    (by simp [MAX_RECORDS])]
  simp [noEffects]

/-! ## Claim theorems for the importer batching -/

/-- C2: for every dump document holding R rows, provided no write call
fails at transport level (a transport failure aborts the document), the
importer issues exactly ceil(R/100) write calls; every call carries at
least 1 and at most 100 records, every call except the last carries
exactly 100, and the last call carries R mod 100 records, or 100 when R
is a positive multiple of 100. -/
theorem importer_batch_ceiling (env : ImportEnv) (obj : DumpObj)
    (hw : ∀ b, env.writeOutcome b ≠ WriteOutcome.transportFail) :
    (importCalls env obj).length = (obj.Rows.length + 99) / 100
    ∧ (∀ c ∈ importCalls env obj, 1 ≤ c.length ∧ c.length ≤ 100)
    ∧ (∀ c ∈ (importCalls env obj).dropLast, c.length = 100)
    ∧ (importCalls env obj).getLast?.map List.length
        = if obj.Rows.length = 0 then none
          else some (if obj.Rows.length % 100 = 0 then 100
            else obj.Rows.length % 100) := by
  rw [importCalls_eq env obj hw]
  have hM : MAX_RECORDS = 100 := rfl
  rw [hM]
  have hlen : (obj.Rows.map (fun r => processRow env.ts obj.ColumnInfo r.Data)).length
      = obj.Rows.length := by simp
  refine ⟨?_, ?_, ?_, ?_⟩
  · rw [specChunks_length 100 (by omega), hlen]
    have heq : obj.Rows.length + 100 - 1 = obj.Rows.length + 99 := by omega
    rw [heq]
  · intro c hc
    constructor
    · have hne := specChunks_mem_ne_nil 100 _ c hc
      have hpos : 0 < c.length := List.length_pos.mpr hne
      omega
    · exact specChunks_mem_length_le 100 (by omega) _ c hc
  · exact specChunks_dropLast_full 100 (by omega) _
  · by_cases h0 : obj.Rows.length = 0
    · have hnil : obj.Rows = [] := List.length_eq_zero.mp h0
      rw [if_pos h0, hnil, List.map_nil, specChunks_nil]
      rfl
    · rw [if_neg h0]
      have hne : obj.Rows.map (fun r => processRow env.ts obj.ColumnInfo r.Data)
          ≠ [] := fun hcon => h0 (by rw [← hlen, hcon]; rfl)
      rw [specChunks_getLast_len 100 (by omega) _ hne, hlen]

/-- C2, witness: the theorem applied to a document of one row, giving
one write call of one record. -/
theorem importer_batch_ceiling_witness :
    (∀ b, (⟨true, fun _ _ => none, fun _ => WriteOutcome.success, fun _ => 0⟩
        : ImportEnv).writeOutcome b ≠ WriteOutcome.transportFail)
    ∧ ((importCalls ⟨true, fun _ _ => none, fun _ => WriteOutcome.success, fun _ => 0⟩
          ⟨[], [⟨[]⟩]⟩).length = (([⟨[]⟩] : List QRow).length + 99) / 100
      ∧ (∀ c ∈ importCalls ⟨true, fun _ _ => none, fun _ => WriteOutcome.success,
            fun _ => 0⟩ ⟨[], [⟨[]⟩]⟩, 1 ≤ c.length ∧ c.length ≤ 100)
      ∧ (∀ c ∈ (importCalls ⟨true, fun _ _ => none, fun _ => WriteOutcome.success,
            fun _ => 0⟩ ⟨[], [⟨[]⟩]⟩).dropLast, c.length = 100)
      ∧ (importCalls ⟨true, fun _ _ => none, fun _ => WriteOutcome.success, fun _ => 0⟩
            ⟨[], [⟨[]⟩]⟩).getLast?.map List.length
          = if ([⟨[]⟩] : List QRow).length = 0 then none
            else some (if ([⟨[]⟩] : List QRow).length % 100 = 0 then 100
              else ([⟨[]⟩] : List QRow).length % 100)) :=
  ⟨fun _ h => WriteOutcome.noConfusion h,
    importer_batch_ceiling ⟨true, fun _ _ => none, fun _ => WriteOutcome.success,
      fun _ => 0⟩ ⟨[], [⟨[]⟩]⟩ (fun _ h => WriteOutcome.noConfusion h)⟩

/-! ## Claim theorems for the importer row reshaping -/

theorem applyCell_skip (ts : String → Int) (rec : TsRecord) (ci : ColInfoEntry)
    (cell : Cell) (h : cell.kind ≠ "ScalarValue") :
    applyCell ts rec ci cell = rec := by
  unfold applyCell
  rw [if_pos h]

/-- C5: a row cell whose kind is not ScalarValue (an explicit NullValue
included) contributes neither a dimension, nor a measure, nor a
timestamp: removing the cell together with its ColumnInfo entry leaves
the reshaped record unchanged, the remaining cells of the row are still
processed, and every row still yields exactly one write record in the
flushed batches. -/
theorem importer_null_cells (ts : String → Int) (cipre cipost : List ColInfoEntry)
    (ci : ColInfoEntry) (dpre dpost : List Cell) (cell : Cell)
    (hlen : cipre.length = dpre.length) (hkind : cell.kind ≠ "ScalarValue") :
    processRow ts (cipre ++ ci :: cipost) (dpre ++ cell :: dpost)
      = processRow ts (cipre ++ cipost) (dpre ++ dpost)
    ∧ ∀ (env : ImportEnv) (obj : DumpObj),
        (∀ b, env.writeOutcome b ≠ WriteOutcome.transportFail) →
        (importCalls env obj).flatten
          = obj.Rows.map (fun r => processRow env.ts obj.ColumnInfo r.Data) := by
  constructor
  · unfold processRow
    rw [List.zip_append hlen, List.zip_cons_cons, List.zip_append hlen]
    rw [List.foldl_append, List.foldl_append]
    simp only [List.foldl_cons]
    rw [applyCell_skip ts _ ci cell hkind]
  · intro env obj hw
    rw [importCalls_eq env obj hw, specChunks_flatten]

/-- C5, witness: the theorem applied to a one-cell row holding a
NullValue under a dimension column. -/
theorem importer_null_cells_witness :
    ((([] : List ColInfoEntry).length = ([] : List Cell).length)
      ∧ (⟨"NullValue", ""⟩ : Cell).kind ≠ "ScalarValue")
    ∧ (processRow (fun _ => 0)
          (([] : List ColInfoEntry) ++ ⟨"host", "VARCHAR"⟩ :: ([] : List ColInfoEntry))
          (([] : List Cell) ++ ⟨"NullValue", ""⟩ :: ([] : List Cell))
        = processRow (fun _ => 0) (([] : List ColInfoEntry) ++ ([] : List ColInfoEntry))
            (([] : List Cell) ++ ([] : List Cell))
      ∧ ∀ (env : ImportEnv) (obj : DumpObj),
          (∀ b, env.writeOutcome b ≠ WriteOutcome.transportFail) →
          (importCalls env obj).flatten
            = obj.Rows.map (fun r => processRow env.ts obj.ColumnInfo r.Data)) :=
  ⟨⟨rfl, by decide⟩,
    importer_null_cells (fun _ => 0) [] [] ⟨"host", "VARCHAR"⟩ [] [] ⟨"NullValue", ""⟩
      rfl (by decide)⟩

theorem foldl_measure_fields (ts : String → Int) :
    ∀ (l : List (ColInfoEntry × Cell)) (rec : TsRecord),
      (∀ p ∈ l, p.2.kind = "ScalarValue" →
        p.1.Name ≠ "measure_name" ∧ startswith "measure_value" p.1.Name = false) →
      ((l.foldl (fun r p => applyCell ts r p.1 p.2) rec).MeasureName = rec.MeasureName
      ∧ (l.foldl (fun r p => applyCell ts r p.1 p.2) rec).MeasureValue = rec.MeasureValue
      ∧ (l.foldl (fun r p => applyCell ts r p.1 p.2) rec).MeasureValueType
          = rec.MeasureValueType) := by
  intro l
  induction l with
  | nil => intro rec h; exact ⟨rfl, rfl, rfl⟩
  | cons p ps ih =>
    intro rec h
    simp only [List.foldl_cons]
    have hstep : (applyCell ts rec p.1 p.2).MeasureName = rec.MeasureName
        ∧ (applyCell ts rec p.1 p.2).MeasureValue = rec.MeasureValue
        ∧ (applyCell ts rec p.1 p.2).MeasureValueType = rec.MeasureValueType := by
      unfold applyCell
      by_cases hk : p.2.kind ≠ "ScalarValue"
      · rw [if_pos hk]; exact ⟨rfl, rfl, rfl⟩
      · rw [if_neg hk]
        have hk2 : p.2.kind = "ScalarValue" := not_not.mp hk
        obtain ⟨h1, h2⟩ := h p (List.mem_cons_self p ps) hk2
        by_cases ht : p.1.Name = "time"
        · rw [if_pos ht]; exact ⟨rfl, rfl, rfl⟩
        · rw [if_neg ht, if_neg (by simp [h2]), if_neg h1]
          exact ⟨rfl, rfl, rfl⟩
    obtain ⟨i1, i2, i3⟩ := ih (applyCell ts rec p.1 p.2)
      (fun q hq => h q (List.mem_cons_of_mem p hq))
    exact ⟨i1.trans hstep.1, i2.trans hstep.2.1, i3.trans hstep.2.2⟩

/-- C8: a row whose cells contain no ScalarValue measure_name cell and
no ScalarValue measure_value cell still yields a write record whose
MeasureName, MeasureValue and MeasureValueType stay the empty strings
of the record template; the record is still appended and counted, and
the batch is not aborted: the flushed batches hold exactly one record
per input row. -/
theorem importer_missing_measures (ts : String → Int) (CI : List ColInfoEntry)
    (data : List Cell)
    (h : ∀ p ∈ CI.zip data, p.2.kind = "ScalarValue" →
      p.1.Name ≠ "measure_name" ∧ startswith "measure_value" p.1.Name = false) :
    (processRow ts CI data).MeasureName = ""
    ∧ (processRow ts CI data).MeasureValue = ""
    ∧ (processRow ts CI data).MeasureValueType = ""
    ∧ ∀ (env : ImportEnv) (obj : DumpObj),
        (∀ b, env.writeOutcome b ≠ WriteOutcome.transportFail) →
        ((importCalls env obj).flatten).length = obj.Rows.length := by
  obtain ⟨h1, h2, h3⟩ := foldl_measure_fields ts (CI.zip data) get_record_template h
  refine ⟨h1, h2, h3, ?_⟩
  intro env obj hw
  rw [importCalls_eq env obj hw, specChunks_flatten, List.length_map]

/-- C8, witness: the theorem applied to a row with a ScalarValue time
cell and a NullValue dimension cell, so neither measure_name nor any
measure_value column carries a scalar. -/
theorem importer_missing_measures_witness :
    (∀ p ∈ ([⟨"time", "TIMESTAMP"⟩, ⟨"host", "VARCHAR"⟩] : List ColInfoEntry).zip
        ([⟨"ScalarValue", "2022-01-01 00:00:00.000000000"⟩, ⟨"NullValue", ""⟩]
          : List Cell),
      p.2.kind = "ScalarValue" →
        p.1.Name ≠ "measure_name" ∧ startswith "measure_value" p.1.Name = false)
    ∧ ((processRow (fun _ => 0) [⟨"time", "TIMESTAMP"⟩, ⟨"host", "VARCHAR"⟩]
          [⟨"ScalarValue", "2022-01-01 00:00:00.000000000"⟩, ⟨"NullValue", ""⟩]).MeasureName
            = ""
      ∧ (processRow (fun _ => 0) [⟨"time", "TIMESTAMP"⟩, ⟨"host", "VARCHAR"⟩]
          [⟨"ScalarValue", "2022-01-01 00:00:00.000000000"⟩, ⟨"NullValue", ""⟩]).MeasureValue
            = ""
      ∧ (processRow (fun _ => 0) [⟨"time", "TIMESTAMP"⟩, ⟨"host", "VARCHAR"⟩]
          [⟨"ScalarValue", "2022-01-01 00:00:00.000000000"⟩, ⟨"NullValue", ""⟩]).MeasureValueType
            = ""
      ∧ ∀ (env : ImportEnv) (obj : DumpObj),
          (∀ b, env.writeOutcome b ≠ WriteOutcome.transportFail) →
          ((importCalls env obj).flatten).length = obj.Rows.length) :=
  ⟨by decide,
    importer_missing_measures (fun _ => 0) [⟨"time", "TIMESTAMP"⟩, ⟨"host", "VARCHAR"⟩]
      [⟨"ScalarValue", "2022-01-01 00:00:00.000000000"⟩, ⟨"NullValue", ""⟩] (by decide)⟩

/-! ## Claim theorem for the importer fatality boundary -/

theorem handler_fold_effects (env : ImportEnv) :
    ∀ (recs : List ImportSqsRecord) (acc : ImpEffects),
      recs.foldl (fun a r => appendEffects a (processSqsRecord env r).2) acc
        = appendEffects acc
            ⟨(recs.map (fun r => (processSqsRecord env r).2.fetches)).flatten,
             (recs.map (fun r => (processSqsRecord env r).2.writes)).flatten⟩ := by
  intro recs
  induction recs with
  | nil =>
    intro acc
    simp [appendEffects]
  | cons r rest ih =>
    intro acc
    simp only [List.foldl_cons, List.map_cons, List.flatten_cons]
    rw [ih]
    simp [appendEffects, List.append_assoc]

/-- C6: the importer lambda_handler raises an exception iff the
describe_table existence check fails; on failure no object is fetched
and no record batch is written; when the check succeeds the handler
returns normally whatever happens to individual records, and the
effects are the concatenation of the per-record effects in record
order, each record being processed at its own boundary. -/
theorem importer_fatality (env : ImportEnv) (recs : List ImportSqsRecord) :
    ((∃ e, (lambda_handler_import env recs).1 = Except.error e)
        ↔ env.describeOk = false)
    ∧ (env.describeOk = false → (lambda_handler_import env recs).2 = noEffects)
    ∧ (env.describeOk = true →
        (lambda_handler_import env recs).1 = Except.ok ()
        ∧ (lambda_handler_import env recs).2.fetches
            = (recs.map (fun r => (processSqsRecord env r).2.fetches)).flatten
        ∧ (lambda_handler_import env recs).2.writes
            = (recs.map (fun r => (processSqsRecord env r).2.writes)).flatten) := by
  unfold lambda_handler_import
  cases hd : env.describeOk with
  | false =>
    rw [if_neg (show ¬ false = true by simp)]
    exact ⟨⟨fun _ => rfl,
      fun _ => ⟨"Exception raised when check DB and Table exist", rfl⟩⟩,
      fun _ => rfl, fun hcon => Bool.noConfusion hcon⟩
  | true =>
    rw [if_pos rfl]
    refine ⟨⟨?_, fun hcon => Bool.noConfusion hcon⟩, fun hcon => Bool.noConfusion hcon,
      fun _ => ⟨rfl, ?_, ?_⟩⟩
    · rintro ⟨e, he⟩
      exact Except.noConfusion he
    · rw [handler_fold_effects env recs noEffects]
      simp [appendEffects, noEffects]
    · rw [handler_fold_effects env recs noEffects]
      simp [appendEffects, noEffects]

/-! ## Claim theorem for the queue-to-S3 partial-batch failures -/

theorem runSqsBatch_spec (ok : SqsRecord → Bool) :
    ∀ (recs : List SqsRecord) (pre : List String),
      (pre ++ recs.map SqsRecord.messageId).Nodup →
      recs.foldl (fun acc r => if ok r then acc.erase r.messageId else acc)
          (pre ++ recs.map SqsRecord.messageId)
        = pre ++ (recs.filter (fun r => !ok r)).map SqsRecord.messageId := by
  intro recs
  induction recs with
  | nil => intro pre h; simp
  | cons r rest ih =>
    intro pre h
    rw [List.map_cons, List.foldl_cons]
    by_cases hok : ok r = true
    · rw [if_pos hok]
      have hmem : r.messageId ∈ r.messageId :: rest.map SqsRecord.messageId :=
        List.mem_cons_self _ _
      have hnotpre : r.messageId ∉ pre := by
        intro hmemp
        exact (List.disjoint_of_nodup_append (by simpa using h)) hmemp hmem
      rw [List.erase_append_right _ hnotpre, List.erase_cons_head]
      have hsub : (pre ++ rest.map SqsRecord.messageId).Sublist
          (pre ++ r.messageId :: rest.map SqsRecord.messageId) :=
        (List.append_sublist_append_left pre).mpr
          (List.Sublist.cons _ (List.Sublist.refl _))
      have h2 : (pre ++ rest.map SqsRecord.messageId).Nodup := h.sublist hsub
      rw [ih pre h2, List.filter_cons]
      simp [hok]
    · rw [if_neg hok]
      rw [List.map_cons] at h
      have hassoc : pre ++ r.messageId :: rest.map SqsRecord.messageId
          = (pre ++ [r.messageId]) ++ rest.map SqsRecord.messageId := by simp
      rw [hassoc] at h ⊢
      rw [ih (pre ++ [r.messageId]) h, List.filter_cons]
      have hok2 : (!ok r) = true := by
        cases hb : ok r with
        | false => rfl
        | true => exact absurd hb hok
      simp [hok2]

/-- C9: when the records of the SQS event carry pairwise distinct
messageIds, both queue-to-S3 handlers return as batchItemFailures
exactly the messageIds of the records that were not successfully stored
to S3, in record order, and no messageId of a record whose payload was
stored. -/
theorem queue_batch_failures (env : S3QueueEnv) (inspect : Bool)
    (recs : List SqsRecord) (hnd : (recs.map SqsRecord.messageId).Nodup) :
    lambda_handler_dump_queue env recs
        = (recs.filter (fun r => !processDumpRecord env r)).map SqsRecord.messageId
    ∧ lambda_handler_iot_queue env inspect recs
        = (recs.filter (fun r => !processIotRecord env inspect r)).map
            SqsRecord.messageId
    ∧ (∀ r ∈ recs, processDumpRecord env r = true →
        r.messageId ∉ lambda_handler_dump_queue env recs)
    ∧ (∀ r ∈ recs, processIotRecord env inspect r = true →
        r.messageId ∉ lambda_handler_iot_queue env inspect recs) := by
  have h1 : lambda_handler_dump_queue env recs
      = (recs.filter (fun r => !processDumpRecord env r)).map SqsRecord.messageId := by
    have hs := runSqsBatch_spec (processDumpRecord env) recs [] (by simpa using hnd)
    simpa [lambda_handler_dump_queue, runSqsBatch] using hs
  have h2 : lambda_handler_iot_queue env inspect recs
      = (recs.filter (fun r => !processIotRecord env inspect r)).map
          SqsRecord.messageId := by
    have hs := runSqsBatch_spec (processIotRecord env inspect) recs []
      (by simpa using hnd)
    simpa [lambda_handler_iot_queue, runSqsBatch] using hs
  refine ⟨h1, h2, ?_, ?_⟩
  · intro r hr hsucc
    rw [h1]
    intro hmem
    obtain ⟨r2, hr2, hid⟩ := List.mem_map.mp hmem
    have hr2rec : r2 ∈ recs := List.mem_of_mem_filter hr2
    have hfail := List.of_mem_filter hr2
    have heq : r2 = r := List.inj_on_of_nodup_map hnd hr2rec hr hid
    rw [heq, hsucc] at hfail
    simp at hfail
  · intro r hr hsucc
    rw [h2]
    intro hmem
    obtain ⟨r2, hr2, hid⟩ := List.mem_map.mp hmem
    have hr2rec : r2 ∈ recs := List.mem_of_mem_filter hr2
    have hfail := List.of_mem_filter hr2
    have heq : r2 = r := List.inj_on_of_nodup_map hnd hr2rec hr hid
    rw [heq, hsucc] at hfail
    simp at hfail

/-- C9, witness: the theorem applied to one record with no body (its id
is reported) under an environment where parsing always fails. -/
theorem queue_batch_failures_witness :
    (([⟨"id1", none⟩] : List SqsRecord).map SqsRecord.messageId).Nodup
    ∧ (lambda_handler_dump_queue ⟨fun _ => none, fun _ => true, fun _ => some 0, 0⟩
          [⟨"id1", none⟩]
        = (([⟨"id1", none⟩] : List SqsRecord).filter
            (fun r => !processDumpRecord ⟨fun _ => none, fun _ => true,
              fun _ => some 0, 0⟩ r)).map SqsRecord.messageId
      ∧ lambda_handler_iot_queue ⟨fun _ => none, fun _ => true, fun _ => some 0, 0⟩
          false [⟨"id1", none⟩]
        = (([⟨"id1", none⟩] : List SqsRecord).filter
            (fun r => !processIotRecord ⟨fun _ => none, fun _ => true,
              fun _ => some 0, 0⟩ false r)).map SqsRecord.messageId
      ∧ (∀ r ∈ ([⟨"id1", none⟩] : List SqsRecord),
          processDumpRecord ⟨fun _ => none, fun _ => true, fun _ => some 0, 0⟩ r = true →
          r.messageId ∉ lambda_handler_dump_queue
            ⟨fun _ => none, fun _ => true, fun _ => some 0, 0⟩ [⟨"id1", none⟩])
      ∧ (∀ r ∈ ([⟨"id1", none⟩] : List SqsRecord),
          processIotRecord ⟨fun _ => none, fun _ => true, fun _ => some 0, 0⟩ false r
              = true →
          r.messageId ∉ lambda_handler_iot_queue
            ⟨fun _ => none, fun _ => true, fun _ => some 0, 0⟩ false [⟨"id1", none⟩])) :=
  ⟨by decide,
    queue_batch_failures ⟨fun _ => none, fun _ => true, fun _ => some 0, 0⟩ false
      [⟨"id1", none⟩] (by decide)⟩

/-! ## Claim theorem for the fan-out key filtering -/

/-- C10: the fan-out handler publishes exactly one message per listed
key ending in .json, in listing order, each message carrying the given
queue url, the fixed body, and the bucket name and key as String-typed
message attributes; every other key is skipped and produces no message. -/
theorem publish_key_filtering (url bucket : String) (contents : List String) :
    lambda_handler_publish url bucket contents
      = (contents.filter (fun k => endswith ".json" k)).map
          (fun k => ⟨url, "See messageAttributes", 0,
            get_formatted_sqs_attributes k bucket⟩)
    ∧ ∀ k, get_formatted_sqs_attributes k bucket
        = ⟨⟨bucket, "String"⟩, ⟨k, "String"⟩⟩ := by
  constructor
  · unfold lambda_handler_publish
    induction contents with
    | nil => rfl
    | cons k rest ih =>
      simp only [publishLoop, List.filter_cons]
      by_cases h : endswith ".json" k = true
      · simp only [h, if_true, List.map_cons]
        rw [ih]
      · simp only [h, Bool.false_eq_true, if_false]
        rw [ih]
  · intro k
    rfl

/-- C6, witness: the theorem applied to an environment whose
describe_table check fails and to an empty record batch. -/
theorem importer_fatality_witness :
    ((∃ e, (lambda_handler_import
          ⟨false, fun _ _ => none, fun _ => WriteOutcome.success, fun _ => 0⟩
          ([] : List ImportSqsRecord)).1 = Except.error e)
        ↔ (⟨false, fun _ _ => none, fun _ => WriteOutcome.success, fun _ => 0⟩
            : ImportEnv).describeOk = false)
    ∧ ((⟨false, fun _ _ => none, fun _ => WriteOutcome.success, fun _ => 0⟩
          : ImportEnv).describeOk = false →
        (lambda_handler_import
          ⟨false, fun _ _ => none, fun _ => WriteOutcome.success, fun _ => 0⟩
          ([] : List ImportSqsRecord)).2 = noEffects)
    ∧ ((⟨false, fun _ _ => none, fun _ => WriteOutcome.success, fun _ => 0⟩
          : ImportEnv).describeOk = true →
        (lambda_handler_import
          ⟨false, fun _ _ => none, fun _ => WriteOutcome.success, fun _ => 0⟩
          ([] : List ImportSqsRecord)).1 = Except.ok ()
        ∧ (lambda_handler_import
            ⟨false, fun _ _ => none, fun _ => WriteOutcome.success, fun _ => 0⟩
            ([] : List ImportSqsRecord)).2.fetches
          = (([] : List ImportSqsRecord).map (fun r => (processSqsRecord
              ⟨false, fun _ _ => none, fun _ => WriteOutcome.success, fun _ => 0⟩
              r).2.fetches)).flatten
        ∧ (lambda_handler_import
            ⟨false, fun _ _ => none, fun _ => WriteOutcome.success, fun _ => 0⟩
            ([] : List ImportSqsRecord)).2.writes
          = (([] : List ImportSqsRecord).map (fun r => (processSqsRecord
              ⟨false, fun _ _ => none, fun _ => WriteOutcome.success, fun _ => 0⟩
              r).2.writes)).flatten) :=
  importer_fatality
    ⟨false, fun _ _ => none, fun _ => WriteOutcome.success, fun _ => 0⟩ []

/-- C10, witness: the theorem applied to a listing of one .json key and
one skipped key. -/
theorem publish_key_filtering_witness :
    lambda_handler_publish "url" "bkt" ["a.json", "b.txt"]
      = ((["a.json", "b.txt"] : List String).filter (fun k => endswith ".json" k)).map
          (fun k => ⟨"url", "See messageAttributes", 0,
            get_formatted_sqs_attributes k "bkt"⟩)
    ∧ ∀ k, get_formatted_sqs_attributes k "bkt"
        = ⟨⟨"bkt", "String"⟩, ⟨k, "String"⟩⟩ :=
  publish_key_filtering "url" "bkt" ["a.json", "b.txt"]

end Lambdas
